import Mathlib

/-!
Verification of the recording-discovery core of `pvr.mcerecordings`.

The development embeds, from `src/database.cpp` and `src/pvr.cpp`:

* the persisted `recording` table and the transient `discover_recording`
  staging table (`open_database`, schema at database.cpp:703-705);
* the scan phase `load_recordings` (database.cpp:513-645);
* the diff/commit phase of `discover_recordings` (database.cpp:319-359);
* the SQLite connection pool `connectionpool` (database.cpp:176-242);
* `get_recording_count` (database.cpp:450-455) and the host entry point
  `GetRecordingsAmount` (pvr.cpp:762-769).

SQL semantics reflected in the embedding:

* `recordingid text primary key not null` uses the default BINARY collation,
  so the uniqueness / NOT NULL constraint compares identifiers exactly;
* SQLite's `lower()` folds ASCII letters only, exactly like `Char.toLower`;
* `v NOT IN (list)` follows SQL three-valued logic in a WHERE clause: it is
  satisfied iff the list is empty, or v is non-NULL, differs from every list
  element, and the list contains no NULL;
* an `INSERT ... SELECT` whose SELECT reads the target table materialises the
  SELECT before inserting, so the subquery in the insert step of
  `discover_recordings` sees the table as it stands after the delete step and
  before any of the statement's own inserts.
-/

namespace MceRec

/-- Equality of Except values is decidable when both components are. -/
instance {ε α : Type _} [DecidableEq ε] [DecidableEq α] : DecidableEq (Except ε α) := fun x y =>
  match x, y with
  | .error a, .error b =>
      if h : a = b then isTrue (by rw [h]) else isFalse (fun hc => by cases hc; exact h rfl)
  | .error _, .ok _ => isFalse (fun hc => by cases hc)
  | .ok _, .error _ => isFalse (fun hc => by cases hc)
  | .ok a, .ok b =>
      if h : a = b then isTrue (by rw [h]) else isFalse (fun hc => by cases hc; exact h rfl)

/-- SQLite lower(): ASCII-only case folding (Char.toLower is ASCII-only). -/
def sqlLower (s : String) : String := String.mk (s.data.map Char.toLower)

/-- lower() applied to a nullable text value; lower(NULL) is NULL. -/
def lowerOpt (v : Option String) : Option String := v.map sqlLower

/-- Truth of the SQL predicate v NOT IN l inside a WHERE clause
(NULL results count as false). -/
def notInWhere (v : Option String) (l : List (Option String)) : Bool :=
  if l = [] then true
  else
    match v with
    | none => false
    | some x => if some x ∈ l then false else decide (none ∉ l)

/-- One row of the recording table (schema at database.cpp:703-705) or of the
identically shaped discover_recording staging table. Text columns are
nullable; the staging table carries no constraints, so recordingid is
nullable there. -/
structure Row where
  recordingid : Option String
  title : Option String
  episodename : Option String
  seriesnumber : Int
  episodenumber : Int
  year : Int
  streamurl : Option String
  directory : Option String
  plot : Option String
  channelname : Option String
  recordingtime : Int
  duration : Int
deriving DecidableEq, Repr

/-- The recordingid column of a list of rows. -/
def ids (rows : List Row) : List (Option String) := rows.map (fun r => r.recordingid)

/-- lower(recordingid) of a list of rows. -/
def lowerIds (rows : List Row) : List (Option String) :=
  rows.map (fun r => lowerOpt r.recordingid)

/-- Database state: the persisted recording table and the temp staging table
(none when the staging table does not exist). -/
structure DBState where
  recording : List Row
  staging : Option (List Row)
deriving DecidableEq, Repr

/-- Errors surfaced by the embedded operations. -/
inductive Err where
  | invalidArgument
  | enumerateFailed
  | cancelled
  | constraintViolation
  | openFailed
deriving DecidableEq, Repr

/-- The delete step of discover_recordings (database.cpp:341):
delete from recording where recordingid not in
(select recordingid from discover_recording).
Returns (number of deleted rows, remaining table). -/
def deleteStep (rec staged : List Row) : Nat × List Row :=
  ((rec.filter (fun r => notInWhere r.recordingid (ids staged))).length,
   rec.filter (fun r => !notInWhere r.recordingid (ids staged)))

/-- Insertion of a single row into the recording table, enforcing the
recordingid primary-key (NOT NULL, exact-comparison uniqueness) constraint. -/
def insertRow (rec : List Row) (r : Row) : Except Err (List Row) :=
  match r.recordingid with
  | none => .error .constraintViolation
  | some x => if some x ∈ ids rec then .error .constraintViolation
              else .ok (rec ++ [r])

/-- Sequential insertion of rows; the first constraint violation aborts the
statement (default ON CONFLICT ABORT, and the enclosing transaction is then
rolled back by discover_recordings). -/
def insertRows (rec : List Row) : List Row → Except Err (List Row)
  | [] => .ok rec
  | r :: rest =>
    match insertRow rec r with
    | .error e => .error e
    | .ok rec2 => insertRows rec2 rest

/-- The insert step of discover_recordings (database.cpp:344):
insert into recording select * from discover_recording where
lower(recordingid) not in (select lower(recordingid) from recording).
The subquery is evaluated against the table as left by the delete step.
Returns (number of inserted rows, new table) or a constraint violation. -/
def insertStep (rec staged : List Row) : Except Err (Nat × List Row) :=
  let cands := staged.filter (fun s => notInWhere (lowerOpt s.recordingid) (lowerIds rec))
  match insertRows rec cands with
  | .error e => .error e
  | .ok rec2 => .ok (cands.length, rec2)

/-- The diff/commit transaction of discover_recordings (database.cpp:336-351):
begin immediate transaction; delete step; insert step; commit. The changed
flag is raised iff either step affected at least one row. On error the
caller rolls the transaction back, restoring the pre-transaction table. -/
def diffCommit (rec staged : List Row) : Except Err (List Row × Bool) :=
  let d := deleteStep rec staged
  match insertStep d.2 staged with
  | .error e => .error e
  | .ok (n, rec2) => .ok (rec2, decide (0 < d.1) || decide (0 < n))

/-- Metadata fields extracted from one .wtv file by the shell property store
(database.cpp:573-613); the wide-string getters always yield a (possibly
empty) string, never NULL, and the numeric fields arrive as already-converted
ints. -/
structure Metadata where
  title : String
  episodename : String
  seriesnumber : Int
  episodenumber : Int
  year : Int
  plot : String
  channelname : String
  recordingtime : Int
  duration : Int
deriving DecidableEq, Repr

/-- One entry of the directory listing handed back by GetDirectory
(database.cpp:536). meta is some m when metadata extraction and the staging
insert succeed for this file, and none when processing the file throws (the
exception is caught at database.cpp:625-630, logged, and the loop continues). -/
structure FileEntry where
  path : Option String
  folder : Bool
  meta : Option Metadata
deriving DecidableEq, Repr

/-- The staging row built for one file (database.cpp:569-613): recordingid
and streamurl are both the file path, directory duplicates the title. -/
def rowOfFile (path : Option String) (m : Metadata) : Row :=
  { recordingid := path
    title := some m.title
    episodename := some m.episodename
    seriesnumber := m.seriesnumber
    episodenumber := m.episodenumber
    year := m.year
    streamurl := path
    directory := some m.title
    plot := some m.plot
    channelname := some m.channelname
    recordingtime := m.recordingtime
    duration := m.duration }

/-- The per-file loop of load_recordings (database.cpp:541-635). The index i
numbers every directory entry; folders are skipped before the cancellation
check (database.cpp:547 precedes 550); cancel i is the value of the
cancellation token observed at entry i; a failed file is logged and skipped. -/
def scanLoop (cancel : Nat → Bool) : Nat → List FileEntry → Except Err (List Row)
  | _, [] => .ok []
  | i, f :: rest =>
    if f.folder then scanLoop cancel (i + 1) rest
    else if cancel i then .error .cancelled
    else
      match f.meta with
      | none => scanLoop cancel (i + 1) rest
      | some m =>
        match scanLoop cancel (i + 1) rest with
        | .error e => .error e
        | .ok rows => .ok (rowOfFile f.path m :: rows)

/-- load_recordings (database.cpp:513-645): a null or empty folder leaves the
staging table empty (database.cpp:525); dirOk is whether GetDirectory
succeeds (database.cpp:536); otherwise the per-file loop runs. Returns the
rows inserted into the staging table. -/
def load_recordings (folder : Option String) (dirOk : Bool) (files : List FileEntry)
    (cancel : Nat → Bool) : Except Err (List Row) :=
  match folder with
  | none => .ok []
  | some f =>
    if f = "" then .ok []
    else if dirOk then scanLoop cancel 0 files
    else .error .enumerateFailed

/-- The rows of the staging set after a scan that runs to completion: one row
per non-folder file whose processing succeeded, in listing order. -/
def scanRows (files : List FileEntry) : List Row :=
  files.filterMap (fun f => if f.folder then none else f.meta.map (rowOfFile f.path))

/-- discover_recordings (database.cpp:319-359): drop any leftover staging
table, create a fresh empty one, run the scan, then the diff/commit
transaction. On any error the transaction (if begun) is rolled back, the
staging table is dropped, and the error propagates; on success the staging
table is dropped and the changed flag returned. The returned state is the
database after the call, paired with the outcome. -/
def discover_recordings (folder : Option String) (dirOk : Bool) (files : List FileEntry)
    (cancel : Nat → Bool) (st : DBState) : DBState × Except Err Bool :=
  match load_recordings folder dirOk files cancel with
  | .error e => (⟨st.recording, none⟩, .error e)
  | .ok rows =>
    match diffCommit st.recording rows with
    | .error e => (⟨st.recording, none⟩, .error e)
    | .ok (rec2, changed) => (⟨rec2, none⟩, .ok changed)

/-- Connection pool state (database.h:140-144): the stored connection string
and flags, the master ledger of every connection created (m_connections),
and the FIFO idle queue (m_queue, head = front). Handles are abstracted as
naturals. -/
structure Pool where
  connstr : String
  flags : Int
  connections : List Nat
  queue : List Nat
deriving DecidableEq, Repr

/-- connectionpool::acquire (database.cpp:207-224): if the idle queue is
empty, open a new connection with the stored connection string and flags,
append it to the master ledger and return it without queueing it; otherwise
pop and return the queue front. openDB models open_database(connstr, flags,
false); if it fails, the exception propagates and the pool is unchanged. -/
def acquire (p : Pool) (openDB : String → Int → Except Err Nat) : Except Err (Nat × Pool) :=
  match p.queue with
  | [] =>
    match openDB p.connstr p.flags with
    | .error e => .error e
    | .ok h => .ok (h, ⟨p.connstr, p.flags, p.connections ++ [h], []⟩)
  | h :: rest => .ok (h, ⟨p.connstr, p.flags, p.connections, rest⟩)

/-- connectionpool::release (database.cpp:235-242): a null handle raises
invalid_argument and leaves the pool untouched; otherwise the handle is
pushed onto the back of the idle queue. -/
def release (p : Pool) (handle : Option Nat) : Except Err Pool :=
  match handle with
  | none => .error .invalidArgument
  | some h => .ok ⟨p.connstr, p.flags, p.connections, p.queue ++ [h]⟩

/-- get_recording_count (database.cpp:450-455): returns 0 for a null
instance, and 0 for every live instance as well. -/
def get_recording_count (inst : Option DBState) : Int :=
  match inst with
  | none => 0
  | some _ => 0

/-- GetRecordingsAmount (pvr.cpp:762-769), non-throwing path: deleted
recordings are unsupported (0); otherwise the count comes from
get_recording_count on the acquired pool connection. -/
def GetRecordingsAmount (deleted : Bool) (db : DBState) : Int :=
  if deleted then 0 else get_recording_count (some db)

/-- Written from the words of claim C1 / spec section 4.4 (Diff-and-Commit),
for comparison against diffCommit: keep every persisted record whose
identifier occurs in the staging set, and insert every staged record whose
identifier is case-insensitively absent from the original persisted set. -/
def specCommitC1 (rec staged : List Row) : List Row :=
  rec.filter (fun p => decide (p.recordingid ∈ ids staged))
    ++ staged.filter (fun s => !decide (lowerOpt s.recordingid ∈ lowerIds rec))

/-- Concrete metadata used by the concrete runs below. -/
def mdata (t : String) : Metadata :=
  { title := t, episodename := "ep", seriesnumber := 1, episodenumber := 2, year := 2017,
    plot := "p", channelname := "ch", recordingtime := 10, duration := 3600 }

/-- A concrete recording-table row with the given identifier and title. -/
def mkRow (rid : Option String) (t : String) : Row :=
  { recordingid := rid, title := some t, episodename := none, seriesnumber := 0,
    episodenumber := 0, year := 0, streamurl := rid, directory := none, plot := none,
    channelname := none, recordingtime := 0, duration := 0 }

/-- The persisted rows surviving the delete step: exactly those whose
identifier occurs (exact, case-sensitive comparison) in the staging set. -/
def keptRows (rec staged : List Row) : List Row :=
  rec.filter (fun r => decide (r.recordingid ∈ ids staged))

/-- The staged rows the insert step adds: exactly those whose lowercased
identifier is absent from the lowercased identifiers of the surviving
persisted rows. -/
def candRows (rec staged : List Row) : List Row :=
  staged.filter (fun s => !decide (lowerOpt s.recordingid ∈ lowerIds (keptRows rec staged)))

lemma notInWhere_eq_not_mem {v : Option String} {l : List (Option String)}
    (hv : v.isSome) (hl : none ∉ l) : notInWhere v l = !decide (v ∈ l) := by
  obtain ⟨x, rfl⟩ := Option.isSome_iff_exists.mp hv
  unfold notInWhere
  by_cases h0 : l = []
  · subst h0; simp
  · by_cases h1 : some x ∈ l
    · simp [h0, h1]
    · simp [h0, h1, hl]

lemma none_not_mem_ids {rows : List Row} (h : ∀ r ∈ rows, r.recordingid.isSome) :
    none ∉ ids rows := by
  intro hmem
  obtain ⟨r, hr, hid⟩ := List.mem_map.mp hmem
  have := h r hr
  rw [hid] at this
  simp at this

lemma none_not_mem_lowerIds {rows : List Row} (h : ∀ r ∈ rows, r.recordingid.isSome) :
    none ∉ lowerIds rows := by
  intro hmem
  obtain ⟨r, hr, hid⟩ := List.mem_map.mp hmem
  have := h r hr
  obtain ⟨x, hx⟩ := Option.isSome_iff_exists.mp this
  rw [hx] at hid
  simp [lowerOpt] at hid

lemma mem_lowerIds_of_mem_ids {v : Option String} {rows : List Row}
    (h : v ∈ ids rows) : lowerOpt v ∈ lowerIds rows := by
  obtain ⟨r, hr, hid⟩ := List.mem_map.mp h
  exact List.mem_map.mpr ⟨r, hr, by rw [hid]⟩

lemma insertRows_ok (l : List Row) : ∀ cur : List Row,
    (∀ c ∈ l, c.recordingid.isSome) →
    (∀ c ∈ l, c.recordingid ∉ ids cur) →
    (ids l).Nodup →
    insertRows cur l = .ok (cur ++ l) := by
  induction l with
  | nil => intro cur _ _ _; simp [insertRows]
  | cons c rest ih =>
    intro cur h1 h2 h3
    obtain ⟨x, hx⟩ := Option.isSome_iff_exists.mp (h1 c (by simp))
    have hnotin : some x ∉ ids cur := by rw [← hx]; exact h2 c (by simp)
    have hstep : insertRow cur c = .ok (cur ++ [c]) := by
      unfold insertRow
      rw [hx]
      simp [hnotin]
    have hnd : (ids rest).Nodup := by
      have : ids (c :: rest) = c.recordingid :: ids rest := rfl
      rw [this] at h3
      exact h3.of_cons
    have hhead : c.recordingid ∉ ids rest := by
      have : ids (c :: rest) = c.recordingid :: ids rest := rfl
      rw [this] at h3
      exact (List.nodup_cons.mp h3).1
    have hrest : ∀ c2 ∈ rest, c2.recordingid ∉ ids (cur ++ [c]) := by
      intro c2 hc2 hmem
      have : ids (cur ++ [c]) = ids cur ++ [c.recordingid] := by
        simp [ids]
      rw [this] at hmem
      rcases List.mem_append.mp hmem with hA | hB
      · exact h2 c2 (by simp [hc2]) hA
      · have : c2.recordingid = c.recordingid := by simpa using hB
        exact hhead (this ▸ List.mem_map.mpr ⟨c2, hc2, rfl⟩)
    have hcalc : insertRows cur (c :: rest) = insertRows (cur ++ [c]) rest := by
      simp only [insertRows, hstep]
    rw [hcalc, ih (cur ++ [c]) (fun c2 hc2 => h1 c2 (by simp [hc2])) hrest hnd]
    simp

/-- Under the recording-table invariant (non-NULL identifiers) and a staging
set with non-NULL, pairwise distinct identifiers, the diff/commit transaction
succeeds and produces exactly the surviving rows followed by the inserted
rows; the changed flag is raised iff a row was deleted or inserted. -/
lemma diffCommit_characterization (rec staged : List Row)
    (hrec : ∀ r ∈ rec, r.recordingid.isSome)
    (hstag : ∀ s ∈ staged, s.recordingid.isSome)
    (hnd : (ids staged).Nodup) :
    diffCommit rec staged
      = .ok (keptRows rec staged ++ candRows rec staged,
             rec.any (fun r => !decide (r.recordingid ∈ ids staged))
               || !(candRows rec staged).isEmpty) := by
  have hnostag : none ∉ ids staged := none_not_mem_ids hstag
  have hq : ∀ r ∈ rec, notInWhere r.recordingid (ids staged)
      = !decide (r.recordingid ∈ ids staged) := fun r hr =>
    notInWhere_eq_not_mem (hrec r hr) hnostag
  have hdel2 : rec.filter (fun r => !notInWhere r.recordingid (ids staged))
      = keptRows rec staged := by
    unfold keptRows
    apply List.filter_congr
    intro r hr
    rw [hq r hr, Bool.not_not]
  have hdel1 : rec.filter (fun r => notInWhere r.recordingid (ids staged))
      = rec.filter (fun r => !decide (r.recordingid ∈ ids staged)) := by
    apply List.filter_congr
    intro r hr
    rw [hq r hr]
  have hkept : ∀ r ∈ keptRows rec staged, r.recordingid.isSome := by
    intro r hr
    exact hrec r (List.mem_of_mem_filter hr)
  have hnokept : none ∉ lowerIds (keptRows rec staged) := none_not_mem_lowerIds hkept
  have hcand : staged.filter
        (fun s => notInWhere (lowerOpt s.recordingid) (lowerIds (keptRows rec staged)))
      = candRows rec staged := by
    unfold candRows
    apply List.filter_congr
    intro s hs
    have hvsome : (lowerOpt s.recordingid).isSome := by
      obtain ⟨x, hx⟩ := Option.isSome_iff_exists.mp (hstag s hs)
      rw [hx]; simp [lowerOpt]
    rw [notInWhere_eq_not_mem hvsome hnokept]
  have hcands_some : ∀ c ∈ candRows rec staged, c.recordingid.isSome := by
    intro c hc
    exact hstag c (List.mem_of_mem_filter hc)
  have hcands_fresh : ∀ c ∈ candRows rec staged,
      c.recordingid ∉ ids (keptRows rec staged) := by
    intro c hc hmem
    have hpred := List.of_mem_filter hc
    simp only [Bool.not_eq_true', decide_eq_false_iff_not] at hpred
    exact hpred (mem_lowerIds_of_mem_ids hmem)
  have hcands_nd : (ids (candRows rec staged)).Nodup := by
    have hsub : List.Sublist (candRows rec staged) staged := List.filter_sublist _
    have h2 := List.Sublist.nodup (List.Sublist.map (fun r => r.recordingid) hsub)
      (show (List.map (fun r => r.recordingid) staged).Nodup from hnd)
    exact h2
  have hins : insertRows (keptRows rec staged) (candRows rec staged)
      = .ok (keptRows rec staged ++ candRows rec staged) :=
    insertRows_ok _ _ hcands_some hcands_fresh hcands_nd
  have hlen : ∀ (l : List Row) (p : Row → Bool),
      decide (0 < (l.filter p).length) = l.any p := by
    intro l p
    induction l with
    | nil => rfl
    | cons a t iht =>
      cases hpa : p a with
      | true => simp [List.filter_cons, hpa]
      | false => simp [List.filter_cons, hpa, iht]
  unfold diffCommit deleteStep insertStep
  simp only [hdel1, hdel2, hcand, hins]
  have hemp : decide (0 < (candRows rec staged).length) = !(candRows rec staged).isEmpty := by
    cases candRows rec staged <;> simp
  rw [hlen rec _, hemp]

lemma scanLoop_cancelled (cancel : Nat → Bool) :
    ∀ (files : List FileEntry) (i0 : Nat),
    (∃ j, ∃ h : j < files.length, (files.get ⟨j, h⟩).folder = false ∧ cancel (i0 + j) = true) →
    scanLoop cancel i0 files = .error .cancelled := by
  intro files
  induction files with
  | nil =>
    rintro i0 ⟨j, h, _⟩
    exact absurd h (Nat.not_lt_zero j)
  | cons f rest ih =>
    rintro i0 ⟨j, hj, hfold, hcanc⟩
    cases hf : f.folder with
    | true =>
      cases j with
      | zero => simp [hf] at hfold
      | succ k =>
        have hk : k < rest.length := Nat.lt_of_succ_lt_succ hj
        have hrest := ih (i0 + 1)
          ⟨k, hk, by simpa using hfold, by
            have harith : i0 + 1 + k = i0 + (k + 1) := by omega
            rw [harith]; exact hcanc⟩
        simp [scanLoop, hf, hrest]
    | false =>
      cases hc : cancel i0 with
      | true => simp [scanLoop, hf, hc]
      | false =>
        cases j with
        | zero => rw [Nat.add_zero] at hcanc; rw [hcanc] at hc; cases hc
        | succ k =>
          have hk : k < rest.length := Nat.lt_of_succ_lt_succ hj
          have hrest := ih (i0 + 1)
            ⟨k, hk, by simpa using hfold, by
              have harith : i0 + 1 + k = i0 + (k + 1) := by omega
              rw [harith]; exact hcanc⟩
          cases hm : f.meta with
          | none => simp [scanLoop, hf, hc, hm, hrest]
          | some m => simp [scanLoop, hf, hc, hm, hrest]

lemma scanLoop_ok (cancel : Nat → Bool) :
    ∀ (files : List FileEntry) (i0 : Nat),
    (∀ j (h : j < files.length), (files.get ⟨j, h⟩).folder = false → cancel (i0 + j) = false) →
    scanLoop cancel i0 files = .ok (scanRows files) := by
  intro files
  induction files with
  | nil => intro i0 _; rfl
  | cons f rest ih =>
    intro i0 hnc
    have hrest : scanLoop cancel (i0 + 1) rest = .ok (scanRows rest) := by
      apply ih (i0 + 1)
      intro j hj hf
      have harith : i0 + 1 + j = i0 + (j + 1) := by omega
      rw [harith]
      exact hnc (j + 1) (Nat.succ_lt_succ hj) (by simpa using hf)
    cases hf : f.folder with
    | true => simp [scanLoop, hf, hrest, scanRows, List.filterMap_cons]
    | false =>
      have hc : cancel i0 = false := by
        have := hnc 0 (Nat.succ_pos _) (by simpa using hf)
        simpa using this
      cases hm : f.meta with
      | none => simp [scanLoop, hf, hc, hm, hrest, scanRows, List.filterMap_cons]
      | some m => simp [scanLoop, hf, hc, hm, hrest, scanRows, List.filterMap_cons]

example : diffCommit [mkRow (some "a") "pa"] [mkRow (some "A") "sa"]
    = .ok ([mkRow (some "A") "sa"], true) := by decide

example : specCommitC1 [mkRow (some "a") "pa"] [mkRow (some "A") "sa"] = [] := by decide

example : diffCommit [mkRow (some "a") "pA", mkRow (some "b") "pB"]
    [mkRow (some "b") "sB", mkRow (some "c") "sC"]
    = .ok ([mkRow (some "b") "pB", mkRow (some "c") "sC"], true) := by decide

example : diffCommit [mkRow (some "x") "p"] [mkRow (some "x") "s"]
    = .ok ([mkRow (some "x") "p"], false) := by decide

example :
    discover_recordings (some "f") true
      [⟨some "p", false, some (mdata "m1")⟩, ⟨some "p", false, some (mdata "m2")⟩]
      (fun _ => false) ⟨[mkRow (some "q") "pq"], none⟩
    = (⟨[mkRow (some "q") "pq"], none⟩, .error .constraintViolation) := by decide

lemma notInWhere_of_mem {v : Option String} {l : List (Option String)}
    (h : v ∈ l) : notInWhere v l = false := by
  unfold notInWhere
  have hne : l ≠ [] := List.ne_nil_of_mem h
  cases v with
  | none => simp [hne]
  | some x => simp [hne, h]

lemma mem_ids {r : Row} {rows : List Row} (h : r ∈ rows) : r.recordingid ∈ ids rows :=
  List.mem_map_of_mem _ h

/-- C1 — counterexample. The claim predicts, for any persisted table P and
staging set S, a committed table of exactly specCommitC1 P S: P-records with
identifiers absent from S deleted, S-records whose identifier is
case-insensitively absent from P inserted, the rest untouched. For persisted
identifier "a" and staged identifier "A" the claim predicts the empty table
("a" is deleted because the delete comparison is exact, and "A" is not
inserted because "a" is case-insensitively present in P), but the code
inserts "A": its insert subquery consults the table left by the delete step,
from which "a" is already gone. -/
theorem c1_counterexample :
    (diffCommit [mkRow (some "a") "p"] [mkRow (some "A") "s"]).map Prod.fst
      ≠ Except.ok (specCommitC1 [mkRow (some "a") "p"] [mkRow (some "A") "s"]) := by decide

/-- C1 — amended claim. For a persisted table with non-NULL identifiers and a
scanned staging set with non-NULL, pairwise-distinct identifiers,
discover_recordings commits exactly: every persisted record whose identifier
is (case-sensitively) absent from the staging set is deleted; every staged
record whose identifier is case-insensitively absent from the persisted
records that SURVIVE the delete step is inserted; records whose identifier
occurs exactly in both sets are left untouched even if other fields differ;
the changed flag is raised iff a record was deleted or inserted. -/
theorem c1_diff_commit_exact (rec staged : List Row)
    (hrec : (ids rec).all Option.isSome = true)
    (hstag : (ids staged).all Option.isSome = true)
    (hnd : (ids staged).Nodup) :
    diffCommit rec staged
      = .ok (keptRows rec staged ++ candRows rec staged,
             rec.any (fun r => !decide (r.recordingid ∈ ids staged))
               || !(candRows rec staged).isEmpty) := by
  apply diffCommit_characterization
  · intro r hr
    exact List.all_eq_true.mp hrec _ (mem_ids hr)
  · intro s hs
    exact List.all_eq_true.mp hstag _ (mem_ids hs)
  · exact hnd

/-- C1 — witness: the claim's own round-trip example. Persisted {a, b},
staged {b, c}: a is deleted, the persisted b survives untouched (the staged b
carries a different title), c is inserted, and changed is true. -/
theorem c1_witness :
    diffCommit [mkRow (some "a") "pA", mkRow (some "b") "pB"]
        [mkRow (some "b") "sB", mkRow (some "c") "sC"]
      = .ok ([mkRow (some "b") "pB", mkRow (some "c") "sC"], true) := by
  have h := c1_diff_commit_exact [mkRow (some "a") "pA", mkRow (some "b") "pB"]
      [mkRow (some "b") "sB", mkRow (some "c") "sC"] (by decide) (by decide) (by decide)
  rw [h]
  decide

/-- C2: whenever discover_recordings propagates an error — scan failure,
cancellation, or a failing step inside the diff/commit transaction — the
persisted recording table afterwards equals the table before the cycle, and
the staging table is gone. -/
theorem c2_failure_rolls_back (folder : Option String) (dirOk : Bool)
    (files : List FileEntry) (cancel : Nat → Bool) (st : DBState) (e : Err) (st' : DBState)
    (h : discover_recordings folder dirOk files cancel st = (st', .error e)) :
    st'.recording = st.recording ∧ st'.staging = none := by
  unfold discover_recordings at h
  split at h
  · injection h with h1 h2
    rw [← h1]
    exact ⟨rfl, rfl⟩
  · split at h
    · injection h with h1 h2
      rw [← h1]
      exact ⟨rfl, rfl⟩
    · injection h with h1 h2
      simp at h2

/-- C2 — witness: a cycle whose staging set holds two rows with the same
identifier. The delete step removes the persisted row "q", the insert step
then aborts on the duplicated primary key, and the rollback restores "q":
the cycle fails with the table exactly as before. -/
theorem c2_witness :
    (discover_recordings (some "f") true
        [⟨some "p", false, some (mdata "m1")⟩, ⟨some "p", false, some (mdata "m2")⟩]
        (fun _ => false) ⟨[mkRow (some "q") "pq"], none⟩).1.recording
      = [mkRow (some "q") "pq"] := by
  have heq : discover_recordings (some "f") true
      [⟨some "p", false, some (mdata "m1")⟩, ⟨some "p", false, some (mdata "m2")⟩]
      (fun _ => false) ⟨[mkRow (some "q") "pq"], none⟩
      = (⟨[mkRow (some "q") "pq"], none⟩, .error .constraintViolation) := by decide
  have h := c2_failure_rolls_back (some "f") true
      [⟨some "p", false, some (mdata "m1")⟩, ⟨some "p", false, some (mdata "m2")⟩]
      (fun _ => false) ⟨[mkRow (some "q") "pq"], none⟩ .constraintViolation
      ⟨[mkRow (some "q") "pq"], none⟩ heq
  calc (discover_recordings (some "f") true
        [⟨some "p", false, some (mdata "m1")⟩, ⟨some "p", false, some (mdata "m2")⟩]
        (fun _ => false) ⟨[mkRow (some "q") "pq"], none⟩).1.recording
      = (⟨[mkRow (some "q") "pq"], none⟩ : DBState).recording := by rw [heq]
    _ = [mkRow (some "q") "pq"] := h.1

/-- C3 — counterexample. The claim says a persisted set and a staged set
whose identifiers match only case-insensitively (persisted "rb", staged "RB")
commit to an unchanged table with changed = false; the code instead deletes
"rb" (the delete comparison is case-sensitive), inserts "RB", and reports
changed = true. -/
theorem c3_counterexample :
    diffCommit [mkRow (some "rb") "p"] [mkRow (some "RB") "s"]
        = .ok ([mkRow (some "RB") "s"], true)
      ∧ ([mkRow (some "RB") "s"] : List Row) ≠ [mkRow (some "rb") "p"] := by
  exact ⟨by decide, by decide⟩

/-- C3 — amended claim: when the staged identifiers match the persisted
identifiers pairwise EXACTLY (case included), the commit leaves the persisted
table unchanged — even if every other field differs — and reports
changed = false. A pairing that agrees only case-insensitively does not
no-op (see the counterexample): it deletes and re-inserts. -/
theorem c3_exact_match_noop (rec staged : List Row) (h : ids staged = ids rec) :
    diffCommit rec staged = .ok (rec, false) := by
  have hdelf : ∀ r ∈ rec, notInWhere r.recordingid (ids staged) = false := by
    intro r hr
    apply notInWhere_of_mem
    rw [h]
    exact mem_ids hr
  have hcandf : ∀ s ∈ staged, notInWhere (lowerOpt s.recordingid) (lowerIds rec) = false := by
    intro s hs
    apply notInWhere_of_mem
    apply mem_lowerIds_of_mem_ids
    rw [← h]
    exact mem_ids hs
  have h1 : rec.filter (fun r => notInWhere r.recordingid (ids staged)) = [] :=
    List.filter_eq_nil_iff.mpr (fun r hr => by simp [hdelf r hr])
  have h2 : rec.filter (fun r => !notInWhere r.recordingid (ids staged)) = rec :=
    List.filter_eq_self.mpr (fun r hr => by simp [hdelf r hr])
  have h3 : staged.filter (fun s => notInWhere (lowerOpt s.recordingid) (lowerIds rec)) = [] :=
    List.filter_eq_nil_iff.mpr (fun s hs => by simp [hcandf s hs])
  unfold diffCommit deleteStep insertStep
  simp only [h1, h2, h3]
  simp [insertRows]

/-- C3 — witness: persisted and staged rows share identifier "x" exactly but
differ in every descriptive field; the table is unchanged (the persisted
version survives) and changed is false. -/
theorem c3_witness :
    diffCommit [mkRow (some "x") "oldtitle"] [mkRow (some "x") "newtitle"]
      = .ok ([mkRow (some "x") "oldtitle"], false) :=
  c3_exact_match_noop [mkRow (some "x") "oldtitle"] [mkRow (some "x") "newtitle"] (by decide)

/-- C4: if, during the scan, the cancellation token is observed set at some
non-folder directory entry, the whole cycle aborts with the cancellation
error before the diff/commit transaction is begun: the persisted table after
the call is bit-for-bit the table before it, and the staging table is gone. -/
theorem c4_cancel_aborts_unchanged (f : String) (files : List FileEntry)
    (cancel : Nat → Bool) (st : DBState)
    (hne : f ≠ "")
    (hcan : ∃ j, ∃ h : j < files.length,
        (files.get ⟨j, h⟩).folder = false ∧ cancel j = true) :
    discover_recordings (some f) true files cancel st
      = (⟨st.recording, none⟩, .error .cancelled) := by
  have hscan : scanLoop cancel 0 files = .error .cancelled := by
    apply scanLoop_cancelled
    obtain ⟨j, hj, hfold, hc⟩ := hcan
    exact ⟨j, hj, hfold, by simpa using hc⟩
  unfold discover_recordings load_recordings
  simp [hne, hscan]

/-- C4 — witness: the token is observed set at the first (non-folder) file;
the cycle errors with cancellation and the persisted row "keep" survives
untouched. -/
theorem c4_witness :
    discover_recordings (some "folder") true [⟨some "p", false, some (mdata "t")⟩]
        (fun _ => true) ⟨[mkRow (some "keep") "k"], none⟩
      = (⟨[mkRow (some "keep") "k"], none⟩, .error .cancelled) :=
  c4_cancel_aborts_unchanged "folder" [⟨some "p", false, some (mdata "t")⟩]
    (fun _ => true) ⟨[mkRow (some "keep") "k"], none⟩ (by decide)
    ⟨0, by decide, by decide, rfl⟩

/-- C5: when the directory listing succeeds and cancellation is never
observed, the scan runs to completion even if individual files fail metadata
extraction: the staging set holds exactly the rows of the successfully
processed non-folder files, in order, and — given well-formed identifiers —
the whole cycle then completes without error. -/
theorem c5_scan_isolates_failures (f : String) (files : List FileEntry)
    (cancel : Nat → Bool) (st : DBState)
    (hne : f ≠ "")
    (hnc : ∀ j (h : j < files.length), (files.get ⟨j, h⟩).folder = false → cancel j = false)
    (hrec : (ids st.recording).all Option.isSome = true)
    (hsome : (ids (scanRows files)).all Option.isSome = true)
    (hnd : (ids (scanRows files)).Nodup) :
    load_recordings (some f) true files cancel = .ok (scanRows files)
      ∧ ∃ b, (discover_recordings (some f) true files cancel st).2 = .ok b := by
  have hload : load_recordings (some f) true files cancel = .ok (scanRows files) := by
    unfold load_recordings
    simp only [hne, if_false, if_true, ite_false, ite_true]
    exact scanLoop_ok cancel files 0 (fun j hj hf => by simpa using hnc j hj hf)
  refine ⟨hload, ?_⟩
  have hchar := diffCommit_characterization st.recording (scanRows files)
    (fun r hr => List.all_eq_true.mp hrec _ (mem_ids hr))
    (fun s hs => List.all_eq_true.mp hsome _ (mem_ids hs)) hnd
  refine ⟨(st.recording.any fun r => !decide (r.recordingid ∈ ids (scanRows files))) ||
      !(candRows st.recording (scanRows files)).isEmpty, ?_⟩
  unfold discover_recordings
  simp only [hload, hchar]

/-- C5 — witness: five candidate files, the third fails extraction; the
staging set is exactly the four successful rows and the cycle completes. -/
theorem c5_witness :
    load_recordings (some "dir") true
        [⟨some "p1", false, some (mdata "t1")⟩, ⟨some "p2", false, some (mdata "t2")⟩,
         ⟨some "p3", false, none⟩, ⟨some "p4", false, some (mdata "t4")⟩,
         ⟨some "p5", false, some (mdata "t5")⟩]
        (fun _ => false)
      = .ok [rowOfFile (some "p1") (mdata "t1"), rowOfFile (some "p2") (mdata "t2"),
             rowOfFile (some "p4") (mdata "t4"), rowOfFile (some "p5") (mdata "t5")] := by
  have h := c5_scan_isolates_failures "dir"
      [⟨some "p1", false, some (mdata "t1")⟩, ⟨some "p2", false, some (mdata "t2")⟩,
       ⟨some "p3", false, none⟩, ⟨some "p4", false, some (mdata "t4")⟩,
       ⟨some "p5", false, some (mdata "t5")⟩]
      (fun _ => false) ⟨[], none⟩ (by decide) (fun _ _ _ => rfl)
      (by decide) (by decide) (by decide)
  exact h.1.trans (by decide)

/-- C6: acquire returns the front idle connection, removing it from the idle
queue, when one exists; with an empty idle queue it opens a new connection
with the pool's stored connection string and flags, appends it to the master
ledger, returns it without queueing it as idle, and propagates an open
failure with the ledger untouched. -/
theorem c6_acquire_spec (p : Pool) (openDB : String → Int → Except Err Nat) :
    (∀ h rest, p.queue = h :: rest →
        acquire p openDB = .ok (h, ⟨p.connstr, p.flags, p.connections, rest⟩))
      ∧ (p.queue = [] →
          (∀ h, openDB p.connstr p.flags = .ok h →
              acquire p openDB = .ok (h, ⟨p.connstr, p.flags, p.connections ++ [h], []⟩))
            ∧ (∀ e, openDB p.connstr p.flags = .error e → acquire p openDB = .error e)) := by
  refine ⟨?_, ?_⟩
  · intro h rest hq
    unfold acquire
    rw [hq]
  · intro hq
    refine ⟨?_, ?_⟩
    · intro h ho
      unfold acquire
      rw [hq, ho]
    · intro e he
      unfold acquire
      rw [hq, he]

/-- C6 — witness: a pool whose sole connection 7 is idle hands out 7 and
empties the idle queue; a pool with no idle connection opens 8 with its
stored parameters and ledgers it; a failing open propagates, ledger
unchanged. -/
theorem c6_witness :
    acquire ⟨"file.db", 6, [7], [7]⟩ (fun _ _ => .error .openFailed)
        = .ok (7, ⟨"file.db", 6, [7], []⟩)
      ∧ acquire ⟨"file.db", 6, [7], []⟩ (fun _ _ => .ok 8)
          = .ok (8, ⟨"file.db", 6, [7, 8], []⟩)
      ∧ acquire ⟨"file.db", 6, [7], []⟩ (fun _ _ => .error .openFailed)
          = .error .openFailed := by
  refine ⟨?_, ?_, ?_⟩
  · exact (c6_acquire_spec ⟨"file.db", 6, [7], [7]⟩ (fun _ _ => .error .openFailed)).1 7 [] rfl
  · exact ((c6_acquire_spec ⟨"file.db", 6, [7], []⟩ (fun _ _ => .ok 8)).2 rfl).1 8 rfl
  · exact ((c6_acquire_spec ⟨"file.db", 6, [7], []⟩ (fun _ _ => .error .openFailed)).2 rfl).2
      .openFailed rfl

/-- C7: release fails with invalid_argument exactly on a null handle (and
returns no changed pool in that case); a non-null handle is pushed onto the
back of the idle queue, and when it thereby becomes the only idle resource
the very next acquire returns it. -/
theorem c7_release_spec (p : Pool) (mh : Option Nat) :
    (release p mh = .error .invalidArgument ↔ mh = none)
      ∧ ∀ h, mh = some h →
          release p mh = .ok ⟨p.connstr, p.flags, p.connections, p.queue ++ [h]⟩
            ∧ (p.queue = [] → ∀ openDB,
                acquire ⟨p.connstr, p.flags, p.connections, p.queue ++ [h]⟩ openDB
                  = .ok (h, ⟨p.connstr, p.flags, p.connections, []⟩)) := by
  cases mh with
  | none =>
    refine ⟨Iff.intro (fun _ => rfl) (fun _ => rfl), ?_⟩
    intro h hc
    cases hc
  | some h0 =>
    refine ⟨⟨(fun hc => by cases hc), (fun hc => by cases hc)⟩, ?_⟩
    intro h hh
    injection hh with hh
    subst hh
    refine ⟨rfl, ?_⟩
    intro hq openDB
    rw [hq]
    rfl

/-- C7 — witness: releasing a null handle on a pool raises invalid_argument;
releasing handle 3 queues it; the next acquire on that pool returns 3. -/
theorem c7_witness :
    release ⟨"file.db", 6, [3], []⟩ none = .error .invalidArgument
      ∧ release ⟨"file.db", 6, [3], []⟩ (some 3) = .ok ⟨"file.db", 6, [3], [3]⟩
      ∧ acquire ⟨"file.db", 6, [3], [3]⟩ (fun _ _ => .error .openFailed)
          = .ok (3, ⟨"file.db", 6, [3], []⟩) := by
  refine ⟨?_, ?_, ?_⟩
  · exact (c7_release_spec ⟨"file.db", 6, [3], []⟩ none).1.mpr rfl
  · exact ((c7_release_spec ⟨"file.db", 6, [3], []⟩ (some 3)).2 3 rfl).1
  · exact ((c7_release_spec ⟨"file.db", 6, [3], []⟩ (some 3)).2 3 rfl).2 rfl
      (fun _ _ => .error .openFailed)

/-- C8: the staging table never survives a cycle — on every exit path
(success, cancellation, scan failure, transaction failure) the state
discover_recordings returns has no staging table — and the cycle's outcome
is independent of whatever staging table a previous failed run left behind,
because a leftover table is dropped and a fresh empty one created before the
scan. -/
theorem c8_staging_lifecycle (folder : Option String) (dirOk : Bool) (files : List FileEntry)
    (cancel : Nat → Bool) (st : DBState) :
    (discover_recordings folder dirOk files cancel st).1.staging = none
      ∧ discover_recordings folder dirOk files cancel st
          = discover_recordings folder dirOk files cancel ⟨st.recording, none⟩ := by
  constructor
  · unfold discover_recordings
    cases hl : load_recordings folder dirOk files cancel with
    | error e => rfl
    | ok rows =>
      cases hd : diffCommit st.recording rows with
      | error e => simp [hd]
      | ok pr =>
        obtain ⟨a, b⟩ := pr
        simp [hd]
  · rfl

/-- C10: get_recording_count returns 0 for every database instance, null or
live, whatever the recording table holds; hence GetRecordingsAmount reports
0 recordings on its non-throwing path, for normal and for deleted queries
alike. -/
theorem c10_recording_count_zero :
    (∀ inst : Option DBState, get_recording_count inst = 0)
      ∧ (∀ db : DBState, GetRecordingsAmount false db = 0)
      ∧ (∀ db : DBState, GetRecordingsAmount true db = 0) := by
  refine ⟨fun inst => ?_, fun db => rfl, fun db => rfl⟩
  cases inst with
  | none => rfl
  | some d => rfl

lemma scanLoop_rows_shape (cancel : Nat → Bool) :
    ∀ (files : List FileEntry) (i0 : Nat) (rows : List Row),
    scanLoop cancel i0 files = .ok rows →
    ∀ r ∈ rows, r.streamurl = r.recordingid := by
  intro files
  induction files with
  | nil =>
    intro i0 rows h r hr
    simp only [scanLoop] at h
    injection h with h2
    subst h2
    cases hr
  | cons f rest ih =>
    intro i0 rows h r hr
    unfold scanLoop at h
    by_cases hf : f.folder = true
    · rw [if_pos hf] at h
      exact ih (i0 + 1) rows h r hr
    · rw [if_neg hf] at h
      by_cases hc : cancel i0 = true
      · rw [if_pos hc] at h
        cases h
      · rw [if_neg hc] at h
        cases hm : f.meta with
        | none =>
          rw [hm] at h
          exact ih (i0 + 1) rows h r hr
        | some m =>
          rw [hm] at h
          cases hs : scanLoop cancel (i0 + 1) rest with
          | error e =>
            rw [hs] at h
            cases h
          | ok rows2 =>
            rw [hs] at h
            injection h with h2
            subst h2
            rcases List.mem_cons.mp hr with h1 | h1
            · rw [h1]
              rfl
            · exact ih (i0 + 1) rows2 hs r h1

lemma load_rows_shape (folder : Option String) (dirOk : Bool) (files : List FileEntry)
    (cancel : Nat → Bool) (rows : List Row)
    (h : load_recordings folder dirOk files cancel = .ok rows) :
    ∀ r ∈ rows, r.streamurl = r.recordingid := by
  unfold load_recordings at h
  split at h
  · injection h with h2
    subst h2
    intro r hr
    cases hr
  · rename_i f
    split at h
    · injection h with h2
      subst h2
      intro r hr
      cases hr
    · split at h
      · exact scanLoop_rows_shape cancel files 0 rows h
      · cases h

lemma insertRows_inv : ∀ (l cur out : List Row),
    insertRows cur l = .ok out →
    (ids cur).all Option.isSome = true →
    (ids cur).Nodup →
    ((ids out).all Option.isSome = true ∧ (ids out).Nodup
      ∧ ∀ r ∈ out, r ∈ cur ∨ r ∈ l) := by
  intro l
  induction l with
  | nil =>
    intro cur out h h1 h2
    injection h with h3
    subst h3
    exact ⟨h1, h2, fun r hr => Or.inl hr⟩
  | cons c rest ih =>
    intro cur out h h1 h2
    cases hrow : insertRow cur c with
    | error e =>
      unfold insertRows at h
      rw [hrow] at h
      simp at h
    | ok cur2 =>
      unfold insertRows at h
      rw [hrow] at h
      simp only at h
      obtain ⟨x, hx, hmem, hcur2⟩ :
          ∃ x, c.recordingid = some x ∧ some x ∉ ids cur ∧ cur2 = cur ++ [c] := by
        unfold insertRow at hrow
        split at hrow
        · cases hrow
        · rename_i x hc
          split at hrow
          · cases hrow
          · rename_i hmem
            injection hrow with hrow
            exact ⟨x, hc, hmem, hrow.symm⟩
      subst hcur2
      have hids : ids (cur ++ [c]) = ids cur ++ [some x] := by simp [ids, hx]
      have h1' : (ids (cur ++ [c])).all Option.isSome = true := by
        rw [hids]
        rw [List.all_append]
        simp [List.all_eq_true.mp h1]
        exact fun a ha => List.all_eq_true.mp h1 a ha
      have h2' : (ids (cur ++ [c])).Nodup := by
        rw [hids]
        apply List.Nodup.append h2 (List.nodup_singleton _)
        intro a ha hb
        rw [List.mem_singleton] at hb
        subst hb
        exact hmem ha
      obtain ⟨a1, a2, a3⟩ := ih (cur ++ [c]) out h h1' h2'
      refine ⟨a1, a2, fun r hr => ?_⟩
      rcases a3 r hr with hA | hB
      · rcases List.mem_append.mp hA with h5 | h5
        · exact Or.inl h5
        · rw [List.mem_singleton] at h5
          exact Or.inr (by rw [h5]; simp)
      · exact Or.inr (List.mem_cons_of_mem _ hB)

/-- C9 — counterexample. The scan performs no validation of the identifier
or the stream reference: a directory entry whose path is the empty string is
staged and committed as-is, so the persisted table ends up holding a record
whose identifier and stream url are both the empty string — the claimed
non-emptiness guarantee and the claimed scan-time rejection do not exist in
the code. -/
theorem c9_counterexample :
    (discover_recordings (some "dir") true [⟨some "", false, some (mdata "t")⟩]
        (fun _ => false) ⟨[], none⟩).1.recording
      = [rowOfFile (some "") (mdata "t")]
      ∧ (rowOfFile (some "") (mdata "t")).recordingid = some ""
      ∧ (rowOfFile (some "") (mdata "t")).streamurl = some "" := by
  refine ⟨by decide, rfl, rfl⟩

/-- C9 — amended claim. What the code does guarantee: identifier uniqueness
is enforced by the table's primary key, and its NOT NULL constraint keeps a
record with a NULL identifier from ever being committed (a NULL-identifier
insert makes the whole transaction fail and roll back — there is no per-file
rejection during the scan, and no non-emptiness or playable-reference check
at all). Concretely: a successful cycle starting from a well-formed table
(non-NULL, pairwise distinct identifiers) ends in a well-formed table, and
every row it adds came from the scan, whose rows always carry their source
path as both identifier and stream reference. -/
theorem c9_persisted_invariants (folder : Option String) (dirOk : Bool)
    (files : List FileEntry) (cancel : Nat → Bool) (st st' : DBState) (b : Bool)
    (hwf1 : (ids st.recording).all Option.isSome = true)
    (hwf2 : (ids st.recording).Nodup)
    (h : discover_recordings folder dirOk files cancel st = (st', .ok b)) :
    (ids st'.recording).all Option.isSome = true
      ∧ (ids st'.recording).Nodup
      ∧ st'.recording.all
          (fun r => decide (r ∈ st.recording) || decide (r.streamurl = r.recordingid)) = true := by
  unfold discover_recordings at h
  split at h
  · injection h with h1 h2
    simp at h2
  · rename_i rows hload
    split at h
    · injection h with h1 h2
      simp at h2
    · rename_i pr rec2 changed heq2
      injection h with h1 h2
      injection h2 with h2
      subst h1
      simp only [diffCommit, insertStep] at heq2
      split at heq2
      · cases heq2
      · rename_i n1 out hins
        split at hins
        · cases hins
        · rename_i out2 hinner
          injection hins with hins1
          injection hins1 with hn hout
          subst hout
          injection heq2 with heq2p
          injection heq2p with he1 he2
          subst he1
          have hkids : List.Sublist (ids (deleteStep st.recording rows).2) (ids st.recording) := by
            unfold deleteStep
            exact List.Sublist.map _ (List.filter_sublist _)
          have h1' : (ids (deleteStep st.recording rows).2).all Option.isSome = true :=
            List.all_eq_true.mpr
              (fun a ha => List.all_eq_true.mp hwf1 a (hkids.subset ha))
          have h2' : (ids (deleteStep st.recording rows).2).Nodup :=
            List.Sublist.nodup hkids hwf2
          obtain ⟨a1, a2, a3⟩ := insertRows_inv _ _ _ hinner h1' h2'
          refine ⟨a1, a2, List.all_eq_true.mpr (fun r hr => ?_)⟩
          rcases a3 r hr with hA | hB
          · have : r ∈ st.recording := List.mem_of_mem_filter hA
            simp [this]
          · have hrow : r ∈ rows := List.mem_of_mem_filter hB
            have := load_rows_shape folder dirOk files cancel rows hload r hrow
            simp [this]

/-- C9 — witness: a successful cycle that deletes the persisted row "old"
and inserts the scanned file "new"; the resulting table is well-formed and
its one row, coming from the scan, carries its path as identifier and stream
reference. -/
theorem c9_witness :
    (ids (⟨[rowOfFile (some "new") (mdata "n")], none⟩ : DBState).recording).all
        Option.isSome = true
      ∧ (ids (⟨[rowOfFile (some "new") (mdata "n")], none⟩ : DBState).recording).Nodup
      ∧ (⟨[rowOfFile (some "new") (mdata "n")], none⟩ : DBState).recording.all
          (fun r => decide (r ∈ (⟨[mkRow (some "old") "t"], none⟩ : DBState).recording)
            || decide (r.streamurl = r.recordingid)) = true :=
  c9_persisted_invariants (some "dir") true [⟨some "new", false, some (mdata "n")⟩]
    (fun _ => false) ⟨[mkRow (some "old") "t"], none⟩
    ⟨[rowOfFile (some "new") (mdata "n")], none⟩ true
    (by decide) (by decide) (by decide)

end MceRec
